import Mathlib

/-!
# The in-memory cache store of tusd (package cachestore)

A shallow embedding of src/cachestore/cachestore.go.  The Go store keeps the
bytes of every upload in a process-local map and the upload metadata in a JSON
sidecar file next to a lock file on disk.  The embedding threads both pieces
of state explicitly: the map of the store and the directory on disk.

Modelling conventions.
* A Go map from string to pointer is a function from String to Option; every
  pointer in the map is created by NewUpload and never shared between two
  keys, so plain values are enough.
* Go int and int64 values are unbounded integers: Len only ever counts bytes
  of a slice held in memory, which is smaller than any machine word limit.
* An io.Reader handed to the store is the outcome of reading it to the end:
  either all its bytes or the error it fails with.
* The directory of the store is owned by the store; the only file-system
  failures in the model are a missing directory and a missing file.
* A Go string is a sequence of bytes.  The strings a client supplies in a
  FileInfo (metadata keys and values, names of partial uploads) are byte
  lists, since encoding/json rewrites bytes that are not valid UTF-8.  Upload
  ids and paths are text (uid.Uid yields hexadecimal digits) and are kept as
  String; JSON keeps such text as it is.
-/

set_option linter.unusedVariables false

namespace cachestore

/-! ## Data model -/

/-- One byte of upload content. -/
abbrev Byte := Fin 256

/-- A Go string supplied by a client: any sequence of bytes. -/
abbrev GoString := List Byte

/-- Modelled from the spec: the declaration of the type tusd.FileInfo is not
among the sources.  The fields are the ones the specification lists for the
upload record; MetaData is a Go map from string to string, kept here as the
list of its entries (no key twice), and the integers are Go int64 values.
The field ID is overwritten by NewUpload with the id of the upload before
the record is used. -/
structure FileInfo where
  ID : String
  Size : Int
  SizeIsDeferred : Bool
  Offset : Int
  MetaData : List (GoString × GoString)
  IsPartial : Bool
  IsFinal : Bool
  PartialUploads : List GoString
deriving DecidableEq, Repr

/-- The JSON object of an info file, as the text holds it: the members of the
MetaData object in the order they are written (a key may occur twice in a
text), and the elements of the PartialUploads array. -/
structure Document where
  ID : String
  Size : Int
  SizeIsDeferred : Bool
  Offset : Int
  MetaData : List (GoString × GoString)
  IsPartial : Bool
  IsFinal : Bool
  PartialUploads : List GoString
deriving DecidableEq, Repr

/-- The errors the store can hand back.  The first is the value built by
fmt.Errorf("Not found file id %s", id); notExist is the path error of the os
package for which os.IsNotExist holds; unmarshal is a json.Unmarshal failure;
busy, deadOwner, invalidPid and rogueDeletion are the values ErrBusy,
ErrDeadOwner, ErrInvalidPid and ErrRogueDeletion of the lock library;
fileLocked is tusd.ErrFileLocked; source is an error raised by a reader passed
in by the caller. -/
inductive Error where
  | notFound (id : String)
  | notExist (path : String)
  | unmarshal (path : String)
  | busy
  | deadOwner
  | invalidPid
  | rogueDeletion
  | fileLocked
  | source (msg : String)
deriving DecidableEq, Repr

deriving instance DecidableEq for Except

/-- The predicate os.IsNotExist. -/
def IsNotExist : Option Error → Bool
  | some (.notExist _) => true
  | _ => false

/-- An io.Reader, seen through ioutil.ReadAll. -/
abbrev Reader := Except Error (List Byte)

/-- The function ioutil.ReadAll. -/
def ReadAll (src : Reader) : Except Error (List Byte) := src

/-- The function bytes.NewReader: a reader over a slice never fails. -/
def NewReader (data : List Byte) : Reader := .ok data

/-- The process whose pid a lock file holds: the process running the store,
another running process, or a process that no longer runs. -/
inductive Owner where
  | self
  | other
  | dead
deriving DecidableEq, Repr

/-- What a file of the store directory holds: the JSON text of a FileInfo
(written by writeInfo) or the pid line written by the lock library. -/
inductive FileContent where
  | json (doc : Document)
  | pid (owner : Owner)
deriving DecidableEq, Repr

/-- The directory of the store on disk. -/
structure FileSystem where
  dirExists : Bool
  files : String → Option FileContent

/-- Type CacheFile of the source. -/
structure CacheFile where
  Len : Int
  Data : List Byte
deriving DecidableEq, Repr

/-- Type CacheStore of the source. -/
structure CacheStore where
  Path : String
  files : String → Option CacheFile

/-- The store together with the directory it works in. -/
structure World where
  store : CacheStore
  fs : FileSystem

/-! ## The os, json and filepath functions the store calls -/

/-- The function filepath.Join on a clean directory name and one file name
without separators (the ids come from uid.Uid, a hexadecimal string). -/
def Join (dir name : String) : String := dir ++ "/" ++ name

/-- The function ioutil.ReadFile. -/
def ReadFile (fs : FileSystem) (path : String) : Except Error FileContent :=
  match fs.files path with
  | none => .error (.notExist path)
  | some c => .ok c

/-- The function ioutil.WriteFile: creates or truncates the file; fails when
the directory is missing. -/
def WriteFile (fs : FileSystem) (path : String) (c : FileContent) : FileSystem × Option Error :=
  if fs.dirExists then
    ({ fs with files := fun p => if p = path then some c else fs.files p }, none)
  else (fs, some (.notExist path))

/-- The function os.Remove. -/
def Remove (fs : FileSystem) (path : String) : FileSystem × Option Error :=
  match fs.files path with
  | none => (fs, some (.notExist path))
  | some _ => ({ fs with files := fun p => if p = path then none else fs.files p }, none)

/-- The size that utf8.DecodeRune reports for a valid encoding at the head
of the bytes, and 0 where it reports RuneError with size 1 (or the bytes are
empty): a lead byte 80..C1 or F5..FF, a missing continuation byte, or a
second byte outside the range accepted after the lead byte. -/
def runeLen : GoString → Nat
  | [] => 0
  | b0 :: rest =>
    if b0 < 0x80 then 1
    else if b0 < 0xC2 then 0
    else if b0 < 0xE0 then
      match rest with
      | b1 :: _ => if 0x80 ≤ b1 ∧ b1 ≤ 0xBF then 2 else 0
      | _ => 0
    else if b0 < 0xF0 then
      match rest with
      | b1 :: b2 :: _ =>
        if (if b0 = 0xE0 then 0xA0 else 0x80) ≤ b1 ∧ b1 ≤ (if b0 = 0xED then 0x9F else 0xBF) ∧
            0x80 ≤ b2 ∧ b2 ≤ 0xBF then 3 else 0
      | _ => 0
    else if b0 < 0xF5 then
      match rest with
      | b1 :: b2 :: b3 :: _ =>
        if (if b0 = 0xF0 then 0x90 else 0x80) ≤ b1 ∧ b1 ≤ (if b0 = 0xF4 then 0x8F else 0xBF) ∧
            0x80 ≤ b2 ∧ b2 ≤ 0xBF ∧ 0x80 ≤ b3 ∧ b3 ≤ 0xBF then 4 else 0
      | _ => 0
    else 0

/-- The string writer of encoding/json followed by its string reader, on
the bytes that are left when the first argument says how many bytes of the
current rune are still to be copied: a valid encoding is copied, a byte at
which DecodeRune reports an error is written as the escape of U+FFFD and
read back as the three bytes EF BF BD. -/
def jsonStringFrom : Nat → GoString → GoString
  | _, [] => []
  | n + 1, b :: rest => b :: jsonStringFrom n rest
  | 0, b :: rest =>
    match runeLen (b :: rest) with
    | 0 => 0xEF :: 0xBF :: 0xBD :: jsonStringFrom 0 rest
    | n + 1 => b :: jsonStringFrom n rest

/-- What a Go string becomes when encoding/json writes it and reads it. -/
def jsonString (s : GoString) : GoString := jsonStringFrom 0 s

/-- The function utf8.Valid with a count of rune bytes still to be passed. -/
def validFrom : Nat → GoString → Bool
  | _, [] => true
  | n + 1, _ :: rest => validFrom n rest
  | 0, b :: rest =>
    match runeLen (b :: rest) with
    | 0 => false
    | n + 1 => validFrom n rest

/-- The function utf8.Valid: every byte belongs to a valid encoding. -/
def ValidUTF8 (s : GoString) : Bool := validFrom 0 s

/-- The order in which encoding/json writes the members of a map: by key,
compared byte by byte. -/
def keyLE (a b : GoString × GoString) : Prop := a.1 ≤ b.1

instance : DecidableRel keyLE := fun a b => inferInstanceAs (Decidable (a.1 ≤ b.1))

/-- The Go assignment m[k] = v on a map kept as its list of entries. -/
def assign : List (GoString × GoString) → GoString → GoString → List (GoString × GoString)
  | [], k, v => [(k, v)]
  | (k0, v0) :: rest, k, v => if k0 = k then (k, v) :: rest else (k0, v0) :: assign rest k v

/-- The Go expression m[k] on a map kept as its list of entries. -/
def mapIndex : List (GoString × GoString) → GoString → Option GoString
  | [], _ => none
  | (k0, v0) :: rest, k => if k0 = k then some v0 else mapIndex rest k

/-- The JSON object that the encoder of encoding/json writes for a
FileInfo: the entries of the map are written sorted by key, and every client
string is written by the string writer, which replaces bytes that are not
valid UTF-8. -/
def encode (info : FileInfo) : Document :=
  { ID := info.ID, Size := info.Size, SizeIsDeferred := info.SizeIsDeferred,
    Offset := info.Offset,
    MetaData := (info.MetaData.insertionSort keyLE).map
      (fun kv => (jsonString kv.1, jsonString kv.2)),
    IsPartial := info.IsPartial, IsFinal := info.IsFinal,
    PartialUploads := info.PartialUploads.map jsonString }

/-- The FileInfo that the decoder of encoding/json builds from a JSON object:
the members of the MetaData object are assigned to a new map one after the
other, so that the last member with a given key stays, and the strings go
through the string reader. -/
def decode (doc : Document) : FileInfo :=
  { ID := doc.ID, Size := doc.Size, SizeIsDeferred := doc.SizeIsDeferred,
    Offset := doc.Offset,
    MetaData := doc.MetaData.foldl
      (fun m kv => assign m (jsonString kv.1) (jsonString kv.2)) [],
    IsPartial := doc.IsPartial, IsFinal := doc.IsFinal,
    PartialUploads := doc.PartialUploads.map jsonString }

/-- The function json.Marshal on a FileInfo.  It has no failing case for a
record of strings, integers, booleans, a string map and a string slice. -/
def Marshal (info : FileInfo) : FileContent := .json (encode info)

/-- The function json.Unmarshal into an empty FileInfo; a pid file is not a
JSON object. -/
def Unmarshal (path : String) (data : FileContent) : Except Error FileInfo :=
  match data with
  | .json doc => .ok (decode doc)
  | .pid _ => .error (.unmarshal path)

/-! ## The store -/

/-- Function New of the source. -/
def New (path : String) : CacheStore := ⟨path, fun _ => none⟩

/-- Method infoPath of the source. -/
def infoPath (store : CacheStore) (id : String) : String :=
  Join store.Path (id ++ ".info")

/-- Method newLock of the source; filepath.Abs leaves an absolute path as it
is, and the lock is the path itself. -/
def newLock (store : CacheStore) (id : String) : Except Error String :=
  .ok (Join store.Path (id ++ ".lock"))

/-- Assignment store.files[id] = file. -/
def setFile (w : World) (id : String) (file : CacheFile) : World :=
  { w with store := { w.store with files := fun k => if k = id then some file else w.store.files k } }

/-- Method writeInfo of the source. -/
def writeInfo (w : World) (id : String) (info : FileInfo) : World × Option Error :=
  let data := Marshal info
  let r := WriteFile w.fs (infoPath w.store id) data
  ({ w with fs := r.1 }, r.2)

/-- Method NewUpload of the source.  The call uid.Uid() is a fresh random
identifier produced outside the store; it is the argument uid. -/
def NewUpload (w : World) (uid : String) (info : FileInfo) : World × String × Option Error :=
  let id := uid
  let info := { info with ID := id }
  let w1 := setFile w id { Len := 0, Data := [] }
  let r := writeInfo w1 id info
  (r.1, id, r.2)

/-- Method WriteChunk of the source.  The result is the number of bytes
taken from the reader; the value -1 returned next to an error is dropped. -/
def WriteChunk (w : World) (id : String) (offset : Int) (src : Reader) : World × Except Error Int :=
  match w.store.files id with
  | none => (w, .error (.notFound id))
  | some fileInfo =>
    match ReadAll src with
    | .error err => (w, .error err)
    | .ok buffer =>
      (setFile w id { Len := fileInfo.Len + buffer.length, Data := fileInfo.Data ++ buffer },
        .ok buffer.length)

/-- Method GetInfo of the source. -/
def GetInfo (w : World) (id : String) : Except Error FileInfo :=
  match w.store.files id with
  | none => .error (.notFound id)
  | some _ =>
    match ReadFile w.fs (infoPath w.store id) with
    | .error err => .error err
    | .ok data =>
      match Unmarshal (infoPath w.store id) data with
      | .error err => .error err
      | .ok info =>
        match w.store.files id with
        | none => .error (.notFound id)
        | some fileInfo => .ok { info with Offset := fileInfo.Len }

/-- Method GetReader of the source. -/
def GetReader (w : World) (id : String) : Except Error Reader :=
  match w.store.files id with
  | none => .error (.notFound id)
  | some file => .ok (NewReader file.Data)

/-- Method Terminate of the source. -/
def Terminate (w : World) (id : String) : World × Option Error :=
  match Remove w.fs (infoPath w.store id) with
  | (_, some err) => (w, some err)
  | (fs1, none) =>
    ({ store := { w.store with files := fun k => if k = id then none else w.store.files k },
       fs := fs1 }, none)

/-- The statement of the loop body of ConcatUploads that grows the
destination: the slice behind the pointer file.Data is extended, the field
Len is not touched. -/
def appendData (w : World) (dest : String) (buffer : List Byte) : World :=
  match w.store.files dest with
  | none => w
  | some file => setFile w dest { file with Data := file.Data ++ buffer }

/-- The loop of ConcatUploads over the listed ids. -/
def concatLoop (w : World) (dest : String) : List String → World × Option Error
  | [] => (w, none)
  | id :: rest =>
    match GetReader w id with
    | .error err => (w, some err)
    | .ok src =>
      match ReadAll src with
      | .error err => (w, some err)
      | .ok buffer => concatLoop (appendData w dest buffer) dest rest

/-- Method ConcatUploads of the source. -/
def ConcatUploads (w : World) (dest : String) (uploads : List String) : World × Option Error :=
  match w.store.files dest with
  | none => (w, some (.notFound dest))
  | some _ => concatLoop w dest uploads

/-- Method GetOwner of the lock library (gopkg.in/Acconut/lockfile.v1, which
resolves to release v1.1.0): the error of reading a missing lock file,
ErrInvalidPid for a file without a pid line, ErrDeadOwner for the pid of a
process that no longer runs, and the owner otherwise. -/
def GetOwner (fs : FileSystem) (name : String) : Except Error Owner :=
  match fs.files name with
  | none => .error (.notExist name)
  | some (.json _) => .error .invalidPid
  | some (.pid .dead) => .error .deadOwner
  | some (.pid owner) => .ok owner

/-- Method TryLock of the lock library: a temporary file with the pid of the
caller is linked to the lock name, which succeeds when no lock file is
there; a lock file of a running process makes the call fail with ErrBusy; a
lock file with a dead owner or without a pid is removed and the call starts
over.  The call fails when the directory is missing. -/
def TryLock (fs : FileSystem) (name : String) : FileSystem × Option Error :=
  if fs.dirExists then
    match GetOwner fs name with
    | .ok _ => (fs, some .busy)
    | .error _ =>
      ({ fs with files := fun p => if p = name then some (.pid .self) else fs.files p }, none)
  else (fs, some (.notExist name))

/-- Method Unlock of the lock library, release v1.1.0: the lock file is
removed only when GetOwner reports the calling process as its owner; a lock
file that is missing, has a dead owner, has no pid or belongs to another
process is left alone and the result is ErrRogueDeletion. -/
def Unlock (fs : FileSystem) (name : String) : FileSystem × Option Error :=
  match GetOwner fs name with
  | .ok .self => Remove fs name
  | .ok _ => (fs, some .rogueDeletion)
  | .error err =>
    if err = .invalidPid ∨ err = .deadOwner ∨ IsNotExist (some err) = true then
      (fs, some .rogueDeletion)
    else (fs, some err)

/-- Method LockUpload of the source. -/
def LockUpload (w : World) (id : String) : World × Option Error :=
  match newLock w.store id with
  | .error err => (w, some err)
  | .ok lock =>
    let r := TryLock w.fs lock
    if r.2 = some .busy then ({ w with fs := r.1 }, some .fileLocked)
    else ({ w with fs := r.1 }, r.2)

/-- Method UnlockUpload of the source. -/
def UnlockUpload (w : World) (id : String) : World × Option Error :=
  match newLock w.store id with
  | .error err => (w, some err)
  | .ok lock =>
    let r := Unlock w.fs lock
    if IsNotExist r.2 then ({ w with fs := r.1 }, none)
    else ({ w with fs := r.1 }, r.2)

/-! ## Drivers: sequences of calls made by a client -/

/-- A sequence of WriteChunk calls on one id, each with its own offset
argument and reader; the results are collected in call order. -/
def writeMany (w : World) (id : String) : List (Int × Reader) → World × List (Except Error Int)
  | [] => (w, [])
  | (offset, src) :: rest =>
    let r := WriteChunk w id offset src
    let t := writeMany r.1 id rest
    (t.1, r.2 :: t.2)

/-- The calls of a client that sends the chunks one after the other, each at
the offset reached so far: the start offset plus the lengths of the chunks
already sent. -/
def atCurrentOffset (start : Int) : List (List Byte) → List (Int × Reader)
  | [] => []
  | c :: cs => (start, NewReader c) :: atCurrentOffset (start + c.length) cs

/-- An empty directory that exists. -/
def emptyDir : FileSystem := ⟨true, fun _ => none⟩

/-- A freshly started store over an empty directory. -/
def fresh (path : String) : World := ⟨New path, emptyDir⟩

/-- A FileInfo with the given declared size and nothing else set. -/
def sized (n : Int) : FileInfo :=
  { ID := "", Size := n, SizeIsDeferred := false, Offset := 0, MetaData := [],
    IsPartial := false, IsFinal := false, PartialUploads := [] }

/-- The bytes GetReader yields for an id (none for an unknown id). -/
def content (w : World) (id : String) : List Byte :=
  match GetReader w id with
  | .ok (.ok data) => data
  | _ => []

/-- The calls a client can make on the store. -/
inductive Op where
  | newUpload (uid : String) (info : FileInfo)
  | writeChunk (id : String) (offset : Int) (src : Reader)
  | terminate (id : String)
  | concatUploads (dest : String) (uploads : List String)
  | lockUpload (id : String)
  | unlockUpload (id : String)

/-- The state after one call. -/
def step (w : World) : Op → World
  | .newUpload uid info => (NewUpload w uid info).1
  | .writeChunk id offset src => (WriteChunk w id offset src).1
  | .terminate id => (Terminate w id).1
  | .concatUploads dest uploads => (ConcatUploads w dest uploads).1
  | .lockUpload id => (LockUpload w id).1
  | .unlockUpload id => (UnlockUpload w id).1

/-- The state after a sequence of calls. -/
def run (w : World) : List Op → World
  | [] => w
  | op :: ops => run (step w op) ops

/-- Every entry of the store has a Len between 0 and the number of bytes it
holds; a Len in this range fits the Go type int, as a slice length does. -/
def LenInRange (w : World) : Prop :=
  ∀ id file, w.store.files id = some file → 0 ≤ file.Len ∧ file.Len ≤ file.Data.length

/-- Scenario: one upload "a1" of declared size 10 holding the bytes 1, 2, 3. -/
def threeWritten : World :=
  (WriteChunk (NewUpload (fresh "/data") "a1" (sized 10)).1 "a1" 0 (NewReader [1, 2, 3])).1

/-- Scenario: one upload "a1" of declared size 10, nothing written. -/
def sizeTen : World := (NewUpload (fresh "/data") "a1" (sized 10)).1

/-- Twelve bytes. -/
def twelve : List Byte := [1, 2, 3, 4, 5, 6, 7, 8, 9, 10, 11, 12]

/-- Scenario: partial upload "pa" holding the bytes 1, 2, 3, partial upload
"pb" holding 4, 5, 6, 7, and the final upload "fin" naming both (the bytes
70 61 and 70 62 are the names pa and pb), with no bytes of its own. -/
def partsAB : World :=
  let w1 := (NewUpload (fresh "/data") "pa" { sized 3 with IsPartial := true }).1
  let w2 := (WriteChunk w1 "pa" 0 (NewReader [1, 2, 3])).1
  let w3 := (NewUpload w2 "pb" { sized 4 with IsPartial := true }).1
  let w4 := (WriteChunk w3 "pb" 0 (NewReader [4, 5, 6, 7])).1
  (NewUpload w4 "fin"
    { sized 7 with IsFinal := true, PartialUploads := [[0x70, 0x61], [0x70, 0x62]] }).1

/-- No sidecar file without an entry in the store: an id unknown to the
store has no info file on disk. -/
def NoOrphan (w : World) : Prop :=
  ∀ id, w.store.files id = none → w.fs.files (infoPath w.store id) = none

/-- A record as a client supplies it: an ID and an Offset of its own, and two
metadata entries of valid UTF-8, name = x and kind = C3 A9 (the letter e with
an acute accent), given with the key name first; one partial upload pa. -/
def named : FileInfo :=
  { sized 10 with
    ID := "mine", Offset := 7,
    MetaData := [([0x6E, 0x61, 0x6D, 0x65], [0x78]), ([0x6B, 0x69, 0x6E, 0x64], [0xC3, 0xA9])],
    PartialUploads := [[0x70, 0x61]] }

/-- A record whose metadata value for the key name is the single byte FF,
which is not valid UTF-8, and whose one partial upload name is that byte
too. -/
def rawNamed : FileInfo :=
  { sized 10 with
    MetaData := [([0x6E, 0x61, 0x6D, 0x65], [0xFF])],
    PartialUploads := [[0xFF]] }

/-! ## Basic facts about the operations -/

theorem GetInfo_of_entry (w : World) (id : String) (file : CacheFile) (doc : Document)
    (hf : w.store.files id = some file)
    (hi : w.fs.files (infoPath w.store id) = some (.json doc)) :
    GetInfo w id = .ok { decode doc with Offset := file.Len } := by
  simp [GetInfo, ReadFile, Unmarshal, hf, hi]

theorem GetInfo_of_absent (w : World) (id : String) (hf : w.store.files id = none) :
    GetInfo w id = .error (.notFound id) := by
  simp [GetInfo, hf]

theorem WriteChunk_fs (w : World) (id : String) (offset : Int) (src : Reader) :
    (WriteChunk w id offset src).1.fs = w.fs := by
  unfold WriteChunk
  cases hf : w.store.files id with
  | none => rfl
  | some file =>
    cases src with
    | error e => rfl
    | ok buffer => rfl

theorem WriteChunk_Path (w : World) (id : String) (offset : Int) (src : Reader) :
    (WriteChunk w id offset src).1.store.Path = w.store.Path := by
  unfold WriteChunk
  cases hf : w.store.files id with
  | none => rfl
  | some file =>
    cases src with
    | error e => rfl
    | ok buffer => rfl

theorem WriteChunk_ok (w : World) (id : String) (offset : Int) (buffer : List Byte)
    (file : CacheFile) (hf : w.store.files id = some file) :
    WriteChunk w id offset (NewReader buffer) =
      (setFile w id { Len := file.Len + buffer.length, Data := file.Data ++ buffer },
        .ok buffer.length) := by
  simp [WriteChunk, hf, ReadAll, NewReader]

theorem setFile_same (w : World) (id : String) (file : CacheFile) :
    (setFile w id file).store.files id = some file := by
  simp [setFile]

theorem setFile_other (w : World) (id k : String) (file : CacheFile) (h : k ≠ id) :
    (setFile w id file).store.files k = w.store.files k := by
  simp [setFile, h]

theorem writeMany_fs (w : World) (id : String) (calls : List (Int × Reader)) :
    (writeMany w id calls).1.fs = w.fs := by
  induction calls generalizing w with
  | nil => rfl
  | cons c rest ih =>
    obtain ⟨offset, src⟩ := c
    simp only [writeMany]
    rw [ih, WriteChunk_fs]

theorem writeMany_Path (w : World) (id : String) (calls : List (Int × Reader)) :
    (writeMany w id calls).1.store.Path = w.store.Path := by
  induction calls generalizing w with
  | nil => rfl
  | cons c rest ih =>
    obtain ⟨offset, src⟩ := c
    simp only [writeMany]
    rw [ih, WriteChunk_Path]

theorem writeMany_atCurrentOffset (w : World) (id : String) (start : Int)
    (chunks : List (List Byte)) (file : CacheFile) (hf : w.store.files id = some file) :
    (writeMany w id (atCurrentOffset start chunks)).2
        = chunks.map (fun c => Except.ok (c.length : Int)) ∧
    (writeMany w id (atCurrentOffset start chunks)).1.store.files id
        = some { Len := file.Len + ((chunks.map List.length).sum : Nat),
                 Data := file.Data ++ chunks.flatten } := by
  induction chunks generalizing w start file with
  | nil => simp [atCurrentOffset, writeMany, hf]
  | cons c cs ih =>
    simp only [atCurrentOffset, writeMany]
    rw [WriteChunk_ok w id start c file hf]
    have h := ih (setFile w id { Len := file.Len + c.length, Data := file.Data ++ c })
      (start + c.length) _ (setFile_same w id _)
    refine ⟨by simp [h.1], ?_⟩
    rw [h.2]
    simp only [List.map_cons, List.sum_cons, List.flatten_cons, List.append_assoc, Nat.cast_add]
    rw [add_assoc]

theorem NewUpload_id (w : World) (uid : String) (info : FileInfo) :
    (NewUpload w uid info).2.1 = uid := rfl

theorem NewUpload_Path (w : World) (uid : String) (info : FileInfo) :
    (NewUpload w uid info).1.store.Path = w.store.Path := rfl

theorem NewUpload_entry (w : World) (uid : String) (info : FileInfo) :
    (NewUpload w uid info).1.store.files uid = some { Len := 0, Data := [] } := by
  simp [NewUpload, writeInfo, setFile]

theorem NewUpload_dir (w : World) (uid : String) (info : FileInfo)
    (h : (NewUpload w uid info).2.2 = none) : w.fs.dirExists = true := by
  by_contra hd
  simp [NewUpload, writeInfo, WriteFile, setFile, hd] at h

theorem NewUpload_sidecar (w : World) (uid : String) (info : FileInfo)
    (h : (NewUpload w uid info).2.2 = none) :
    (NewUpload w uid info).1.fs.files (infoPath (NewUpload w uid info).1.store uid)
      = some (.json (encode { info with ID := uid })) := by
  have hd := NewUpload_dir w uid info h
  simp [NewUpload, writeInfo, WriteFile, setFile, hd, infoPath, Marshal]

/-! ## Chunk writes in sequence -/

/-- Claim C1.  After a successful NewUpload, a client that writes the chunks
c1..cN one after the other, each at the offset reached so far, sees every
call succeed (returning the length of the chunk), and afterwards GetInfo
reports as Offset the sum of the chunk lengths and GetReader yields the
chunks concatenated in submission order. -/
theorem C1_sequential_writes (w : World) (uid : String) (info : FileInfo)
    (chunks : List (List Byte)) (hnew : (NewUpload w uid info).2.2 = none) :
    (writeMany (NewUpload w uid info).1 (NewUpload w uid info).2.1
        (atCurrentOffset 0 chunks)).2 = chunks.map (fun c => Except.ok (c.length : Int)) ∧
    (GetInfo (writeMany (NewUpload w uid info).1 (NewUpload w uid info).2.1
        (atCurrentOffset 0 chunks)).1 (NewUpload w uid info).2.1).map (fun i => i.Offset)
      = .ok (((chunks.map List.length).sum : Nat) : Int) ∧
    GetReader (writeMany (NewUpload w uid info).1 (NewUpload w uid info).2.1
        (atCurrentOffset 0 chunks)).1 (NewUpload w uid info).2.1
      = .ok (NewReader chunks.flatten) := by
  rw [NewUpload_id]
  have h := writeMany_atCurrentOffset (NewUpload w uid info).1 uid 0 chunks _
    (NewUpload_entry w uid info)
  have hs := NewUpload_sidecar w uid info hnew
  refine ⟨h.1, ?_, ?_⟩
  · rw [GetInfo_of_entry _ uid _ (encode { info with ID := uid }) h.2]
    · simp [Except.map]
    · rw [writeMany_fs]
      simpa [infoPath, writeMany_Path] using hs
  · simp [GetReader, h.2]

/-- Witness for C1: a store over an empty directory, an upload of declared
size 5 and the chunks [1,2], [] and [3,4,5]. -/
theorem C1_sequential_writes_witness :
    (NewUpload (fresh "/data") "a1" (sized 5)).2.2 = none ∧
    (writeMany (NewUpload (fresh "/data") "a1" (sized 5)).1
        (NewUpload (fresh "/data") "a1" (sized 5)).2.1
        (atCurrentOffset 0 [[1, 2], [], [3, 4, 5]])).2
      = [.ok 2, .ok 0, .ok 3] ∧
    (GetInfo (writeMany (NewUpload (fresh "/data") "a1" (sized 5)).1
        (NewUpload (fresh "/data") "a1" (sized 5)).2.1
        (atCurrentOffset 0 [[1, 2], [], [3, 4, 5]])).1
        (NewUpload (fresh "/data") "a1" (sized 5)).2.1).map (fun i => i.Offset) = .ok 5 ∧
    GetReader (writeMany (NewUpload (fresh "/data") "a1" (sized 5)).1
        (NewUpload (fresh "/data") "a1" (sized 5)).2.1
        (atCurrentOffset 0 [[1, 2], [], [3, 4, 5]])).1
        (NewUpload (fresh "/data") "a1" (sized 5)).2.1 = .ok (NewReader [1, 2, 3, 4, 5]) :=
  ⟨by decide,
    C1_sequential_writes (fresh "/data") "a1" (sized 5) [[1, 2], [], [3, 4, 5]] (by decide)⟩

theorem GetInfo_ok (w : World) (id : String) (i : FileInfo) (h : GetInfo w id = .ok i) :
    ∃ file doc, w.store.files id = some file ∧
      w.fs.files (infoPath w.store id) = some (.json doc) ∧
      i = { decode doc with Offset := file.Len } := by
  unfold GetInfo at h
  cases hf : w.store.files id with
  | none => simp [hf] at h
  | some file =>
    cases hp : w.fs.files (infoPath w.store id) with
    | none => simp [hf, hp, ReadFile] at h
    | some c =>
      cases c with
      | pid o => simp [hf, hp, ReadFile, Unmarshal] at h
      | json doc =>
        simp [hf, hp, ReadFile, Unmarshal] at h
        exact ⟨file, doc, rfl, rfl, h.symm⟩

theorem WriteChunk_GetInfo (w : World) (id : String) (offset : Int) (data : List Byte)
    (i : FileInfo) (h : GetInfo w id = .ok i) :
    (WriteChunk w id offset (NewReader data)).2 = .ok (data.length : Int) ∧
    GetInfo (WriteChunk w id offset (NewReader data)).1 id
      = .ok { i with Offset := i.Offset + data.length } := by
  obtain ⟨file, doc, hf, hp, rfl⟩ := GetInfo_ok w id i h
  rw [WriteChunk_ok w id offset data file hf]
  refine ⟨rfl, ?_⟩
  rw [GetInfo_of_entry _ id _ doc (setFile_same w id _) (by simpa [setFile, infoPath] using hp)]

/-! ## Chunk writes and the offset argument -/

/-- Claim C2, as the code has it.  WriteChunk never looks at its offset
argument: on an existing upload it succeeds for every expectedOffset, also
one that differs from the current offset, returns the length of the data,
appends the data to the stored bytes and advances the offset by that length;
the outcome is the same for any two offset arguments. -/
theorem C2_offset_argument_ignored (w : World) (id : String) (expectedOffset : Int)
    (data : List Byte) (file : CacheFile) (hf : w.store.files id = some file) :
    (WriteChunk w id expectedOffset (NewReader data)).2 = .ok (data.length : Int) ∧
    (WriteChunk w id expectedOffset (NewReader data)).1.store.files id
      = some { Len := file.Len + data.length, Data := file.Data ++ data } ∧
    GetReader (WriteChunk w id expectedOffset (NewReader data)).1 id
      = .ok (NewReader (file.Data ++ data)) ∧
    ∀ other : Int, WriteChunk w id other (NewReader data)
      = WriteChunk w id expectedOffset (NewReader data) := by
  rw [WriteChunk_ok w id expectedOffset data file hf]
  refine ⟨rfl, setFile_same w id _, by simp [GetReader, setFile], ?_⟩
  intro other
  rw [WriteChunk_ok w id other data file hf]

/-- Witness for C2: the upload "a1" holds three bytes and the write comes with
the stale offset 0. -/
theorem C2_offset_argument_ignored_witness :
    threeWritten.store.files "a1" = some { Len := 3, Data := [1, 2, 3] } ∧
    ((WriteChunk threeWritten "a1" 0 (NewReader [9])).2 = .ok (([9] : List Byte).length : Int) ∧
    (WriteChunk threeWritten "a1" 0 (NewReader [9])).1.store.files "a1"
      = some { Len := 3 + ([9] : List Byte).length, Data := [1, 2, 3] ++ [9] } ∧
    GetReader (WriteChunk threeWritten "a1" 0 (NewReader [9])).1 "a1"
      = .ok (NewReader ([1, 2, 3] ++ [9])) ∧
    ∀ other : Int, WriteChunk threeWritten "a1" other (NewReader [9])
      = WriteChunk threeWritten "a1" 0 (NewReader [9])) :=
  ⟨by decide, C2_offset_argument_ignored threeWritten "a1" 0 [9] { Len := 3, Data := [1, 2, 3] }
    (by decide)⟩

/-- Counterexample to C2 as stated: the upload "a1" is at offset 3, a write of
one byte with expectedOffset 0 returns success, and afterwards the stored
bytes and the offset have changed. -/
theorem C2_stale_write_applied :
    (GetInfo threeWritten "a1").map (fun i => i.Offset) = .ok 3 ∧
    GetReader threeWritten "a1" = .ok (NewReader [1, 2, 3]) ∧
    (WriteChunk threeWritten "a1" 0 (NewReader [9])).2 = .ok 1 ∧
    GetReader (WriteChunk threeWritten "a1" 0 (NewReader [9])).1 "a1"
      = .ok (NewReader [1, 2, 3, 9]) ∧
    (GetInfo (WriteChunk threeWritten "a1" 0 (NewReader [9])).1 "a1").map (fun i => i.Offset)
      = .ok 4 := by
  decide

/-! ## The offset stays in range; the declared size is not consulted -/

theorem LenInRange_of_files (w v : World) (h : v.store.files = w.store.files)
    (hw : LenInRange w) : LenInRange v := by
  intro id file hf
  rw [h] at hf
  exact hw id file hf

theorem LenInRange_setFile (w : World) (id : String) (file : CacheFile)
    (hw : LenInRange w) (hl : 0 ≤ file.Len ∧ file.Len ≤ file.Data.length) :
    LenInRange (setFile w id file) := by
  intro k f hf
  by_cases hk : k = id
  · subst hk
    rw [setFile_same] at hf
    cases hf
    exact hl
  · rw [setFile_other w id k file hk] at hf
    exact hw k f hf

theorem LenInRange_NewUpload (w : World) (uid : String) (info : FileInfo)
    (hw : LenInRange w) : LenInRange (NewUpload w uid info).1 :=
  LenInRange_of_files (setFile w uid { Len := 0, Data := [] }) _ rfl
    (LenInRange_setFile w uid _ hw ⟨le_refl _, le_refl _⟩)

theorem LenInRange_WriteChunk (w : World) (id : String) (offset : Int) (src : Reader)
    (hw : LenInRange w) : LenInRange (WriteChunk w id offset src).1 := by
  unfold WriteChunk
  cases hf : w.store.files id with
  | none => exact hw
  | some file =>
    cases src with
    | error e => exact hw
    | ok buffer =>
      have hb := hw id file hf
      refine LenInRange_setFile w id _ hw ⟨?_, ?_⟩
      · exact add_nonneg hb.1 (Int.ofNat_nonneg _)
      · simp only [List.length_append, Nat.cast_add]
        exact add_le_add_right hb.2 _

theorem LenInRange_Terminate (w : World) (id : String)
    (hw : LenInRange w) : LenInRange (Terminate w id).1 := by
  unfold Terminate Remove
  cases hp : w.fs.files (infoPath w.store id) with
  | none => exact hw
  | some c =>
    intro k f hf
    by_cases hk : k = id
    · simp [hk] at hf
    · simp [hk] at hf
      exact hw k f hf

theorem LenInRange_appendData (w : World) (dest : String) (buffer : List Byte)
    (hw : LenInRange w) : LenInRange (appendData w dest buffer) := by
  unfold appendData
  cases hf : w.store.files dest with
  | none => exact hw
  | some file =>
    have hb := hw dest file hf
    refine LenInRange_setFile w dest _ hw ⟨hb.1, ?_⟩
    simp only [List.length_append, Nat.cast_add]
    exact le_trans hb.2 (le_add_of_nonneg_right (Int.ofNat_nonneg _))

theorem LenInRange_concatLoop (w : World) (dest : String) (uploads : List String)
    (hw : LenInRange w) : LenInRange (concatLoop w dest uploads).1 := by
  induction uploads generalizing w with
  | nil => exact hw
  | cons id rest ih =>
    unfold concatLoop
    cases hf : w.store.files id with
    | none => simpa [GetReader, hf] using hw
    | some file =>
      simp only [GetReader, hf, NewReader, ReadAll]
      exact ih _ (LenInRange_appendData w dest file.Data hw)

theorem LenInRange_ConcatUploads (w : World) (dest : String) (uploads : List String)
    (hw : LenInRange w) : LenInRange (ConcatUploads w dest uploads).1 := by
  unfold ConcatUploads
  cases hf : w.store.files dest with
  | none => exact hw
  | some file => exact LenInRange_concatLoop w dest uploads hw

theorem LockUpload_store (w : World) (id : String) : (LockUpload w id).1.store = w.store := by
  unfold LockUpload newLock
  simp only
  split <;> rfl

theorem UnlockUpload_store (w : World) (id : String) :
    (UnlockUpload w id).1.store = w.store := by
  unfold UnlockUpload newLock
  simp only
  split <;> rfl

theorem LenInRange_step (w : World) (op : Op) (hw : LenInRange w) : LenInRange (step w op) := by
  cases op with
  | newUpload uid info => exact LenInRange_NewUpload w uid info hw
  | writeChunk id offset src => exact LenInRange_WriteChunk w id offset src hw
  | terminate id => exact LenInRange_Terminate w id hw
  | concatUploads dest uploads => exact LenInRange_ConcatUploads w dest uploads hw
  | lockUpload id =>
    exact LenInRange_of_files w _ (congrArg CacheStore.files (LockUpload_store w id)) hw
  | unlockUpload id =>
    exact LenInRange_of_files w _ (congrArg CacheStore.files (UnlockUpload_store w id)) hw

theorem LenInRange_run (w : World) (ops : List Op) (hw : LenInRange w) :
    LenInRange (run w ops) := by
  induction ops generalizing w with
  | nil => exact hw
  | cons op ops ih => exact ih _ (LenInRange_step w op hw)

theorem LenInRange_New (path : String) (fs : FileSystem) : LenInRange ⟨New path, fs⟩ := by
  intro id file hf
  simp [New] at hf

/-- Claim C3, as the code has it.  In every state reached from a freshly
started store by any sequence of calls, an upload that GetInfo reports has
0 <= Offset, and a WriteChunk on it succeeds whatever the declared Size is:
it returns the length of the data, GetInfo then reports the same record with
Offset advanced by that length, and GetReader then yields the bytes stored
before followed by all the data.  No upper bound by Size is kept. -/
theorem C3_size_not_consulted (path : String) (fs : FileSystem) (ops : List Op)
    (id : String) (i : FileInfo) (offset : Int) (data : List Byte)
    (h : GetInfo (run ⟨New path, fs⟩ ops) id = .ok i) :
    0 ≤ i.Offset ∧
    (WriteChunk (run ⟨New path, fs⟩ ops) id offset (NewReader data)).2
      = .ok (data.length : Int) ∧
    GetInfo (WriteChunk (run ⟨New path, fs⟩ ops) id offset (NewReader data)).1 id
      = .ok { i with Offset := i.Offset + data.length } ∧
    GetReader (run ⟨New path, fs⟩ ops) id
      = .ok (NewReader (content (run ⟨New path, fs⟩ ops) id)) ∧
    GetReader (WriteChunk (run ⟨New path, fs⟩ ops) id offset (NewReader data)).1 id
      = .ok (NewReader (content (run ⟨New path, fs⟩ ops) id ++ data)) := by
  have hw := WriteChunk_GetInfo _ id offset data i h
  obtain ⟨file, doc, hf, _, rfl⟩ := GetInfo_ok _ id i h
  have hc : content (run ⟨New path, fs⟩ ops) id = file.Data := by
    simp [content, GetReader, hf, NewReader]
  refine ⟨(LenInRange_run _ ops (LenInRange_New path fs) id file hf).1, hw.1, hw.2, ?_, ?_⟩
  · simp [hc, GetReader, hf]
  · rw [hc, WriteChunk_ok _ id offset data file hf]
    simp [GetReader, setFile]

/-- Witness for C3: an upload of declared size 10 and a write of 12 bytes. -/
theorem C3_size_not_consulted_witness :
    GetInfo (run ⟨New "/data", emptyDir⟩ [.newUpload "a1" (sized 10)]) "a1"
      = .ok { sized 10 with ID := "a1" } ∧
    ((0 : Int) ≤ ({ sized 10 with ID := "a1" } : FileInfo).Offset ∧
    (WriteChunk (run ⟨New "/data", emptyDir⟩ [.newUpload "a1" (sized 10)]) "a1" 0
        (NewReader twelve)).2 = .ok (twelve.length : Int) ∧
    GetInfo (WriteChunk (run ⟨New "/data", emptyDir⟩ [.newUpload "a1" (sized 10)]) "a1" 0
        (NewReader twelve)).1 "a1"
      = .ok { ({ sized 10 with ID := "a1" } : FileInfo) with
              Offset := ({ sized 10 with ID := "a1" } : FileInfo).Offset + twelve.length } ∧
    GetReader (run ⟨New "/data", emptyDir⟩ [.newUpload "a1" (sized 10)]) "a1"
      = .ok (NewReader (content (run ⟨New "/data", emptyDir⟩ [.newUpload "a1" (sized 10)])
          "a1")) ∧
    GetReader (WriteChunk (run ⟨New "/data", emptyDir⟩ [.newUpload "a1" (sized 10)]) "a1" 0
        (NewReader twelve)).1 "a1"
      = .ok (NewReader (content (run ⟨New "/data", emptyDir⟩ [.newUpload "a1" (sized 10)])
          "a1" ++ twelve))) :=
  ⟨by decide,
    C3_size_not_consulted "/data" emptyDir [.newUpload "a1" (sized 10)] "a1"
      { sized 10 with ID := "a1" } 0 twelve (by decide)⟩

/-- Counterexample to C3 as stated: after NewUpload with Size 10, a WriteChunk
of 12 bytes at offset 0 returns success and GetInfo reports Offset 12, above
the declared Size 10. -/
theorem C3_oversized_write_applied :
    (GetInfo sizeTen "a1").map (fun i => (i.Size, i.Offset)) = .ok (10, 0) ∧
    (WriteChunk sizeTen "a1" 0 (NewReader twelve)).2 = .ok 12 ∧
    (GetInfo (WriteChunk sizeTen "a1" 0 (NewReader twelve)).1 "a1").map
        (fun i => (i.Size, i.Offset)) = .ok (10, 12) ∧
    GetReader (WriteChunk sizeTen "a1" 0 (NewReader twelve)).1 "a1"
      = .ok (NewReader twelve) := by
  decide

/-! ## Concatenation -/

theorem appendData_fs (w : World) (dest : String) (buffer : List Byte) :
    (appendData w dest buffer).fs = w.fs := by
  unfold appendData
  cases w.store.files dest <;> rfl

theorem appendData_Path (w : World) (dest : String) (buffer : List Byte) :
    (appendData w dest buffer).store.Path = w.store.Path := by
  unfold appendData
  cases w.store.files dest <;> rfl

theorem appendData_other (w : World) (dest k : String) (buffer : List Byte) (hk : k ≠ dest) :
    (appendData w dest buffer).store.files k = w.store.files k := by
  unfold appendData
  cases w.store.files dest with
  | none => rfl
  | some file => exact setFile_other w dest k _ hk

theorem appendData_dest (w : World) (dest : String) (buffer : List Byte) (file : CacheFile)
    (hd : w.store.files dest = some file) :
    (appendData w dest buffer).store.files dest
      = some { file with Data := file.Data ++ buffer } := by
  unfold appendData
  rw [hd]
  exact setFile_same w dest _

theorem content_of_entry (w : World) (id : String) (file : CacheFile)
    (hf : w.store.files id = some file) : content w id = file.Data := by
  simp [content, GetReader, hf, NewReader]

theorem content_congr (w v : World) (id : String)
    (h : v.store.files id = w.store.files id) : content v id = content w id := by
  simp [content, GetReader, h]

theorem GetReader_congr (w v : World) (id : String)
    (h : v.store.files id = w.store.files id) : GetReader v id = GetReader w id := by
  simp [GetReader, h]

theorem concatLoop_fs (w : World) (dest : String) (uploads : List String) :
    (concatLoop w dest uploads).1.fs = w.fs := by
  induction uploads generalizing w with
  | nil => rfl
  | cons id rest ih =>
    unfold concatLoop
    cases hf : w.store.files id with
    | none => simp [GetReader, hf]
    | some file =>
      simp only [GetReader, hf, NewReader, ReadAll]
      rw [ih, appendData_fs]

theorem concatLoop_other (w : World) (dest k : String) (uploads : List String)
    (hk : k ≠ dest) : (concatLoop w dest uploads).1.store.files k = w.store.files k := by
  induction uploads generalizing w with
  | nil => rfl
  | cons id rest ih =>
    unfold concatLoop
    cases hf : w.store.files id with
    | none => simp [GetReader, hf]
    | some file =>
      simp only [GetReader, hf, NewReader, ReadAll]
      rw [ih, appendData_other w dest k _ hk]

/-- The loop over a list that starts with known ids, none of them the
destination: the contents of these ids are appended in order and the loop
goes on with the rest of the list. -/
theorem concatLoop_append (w : World) (dest : String) (pre tail : List String)
    (file : CacheFile) (hd : w.store.files dest = some file)
    (hp : ∀ p ∈ pre, (w.store.files p).isSome = true) (hnd : dest ∉ pre) :
    ∃ v : World, concatLoop w dest (pre ++ tail) = concatLoop v dest tail ∧
      v.store.files dest
        = some { file with Data := file.Data ++ (pre.map (content w)).flatten } ∧
      ∀ k, k ≠ dest → v.store.files k = w.store.files k := by
  induction pre generalizing w file with
  | nil => exact ⟨w, rfl, by simp [hd], fun _ _ => rfl⟩
  | cons id rest ih =>
    have hid : id ≠ dest := fun h => hnd (by simp [h])
    obtain ⟨f, hf⟩ := Option.isSome_iff_exists.mp (hp id (by simp))
    have hrest : ∀ p ∈ rest, p ≠ dest := fun p hp1 h => hnd (by simp [← h, hp1])
    obtain ⟨v, hv, hvd, hvo⟩ := ih (appendData w dest f.Data)
      { file with Data := file.Data ++ f.Data } (appendData_dest w dest f.Data file hd)
      (fun p hp1 => by
        rw [appendData_other w dest p _ (hrest p hp1)]
        exact hp p (by simp [hp1]))
      (fun h => hnd (by simp [h]))
    refine ⟨v, ?_, ?_, ?_⟩
    · rw [← hv]
      simp [concatLoop, GetReader, hf, NewReader, ReadAll]
    · rw [hvd]
      have hc : rest.map (content (appendData w dest f.Data)) = rest.map (content w) :=
        List.map_congr_left (fun p hp1 =>
          content_congr w _ p (appendData_other w dest p _ (hrest p hp1)))
      simp [hc, content_of_entry w id f hf]
    · intro k hk
      rw [hvo k hk, appendData_other w dest k _ hk]

/-- Whatever the list, the loop only ever extends the bytes of the
destination. -/
theorem concatLoop_extends (w : World) (dest : String) (uploads : List String)
    (file : CacheFile) (hd : w.store.files dest = some file) :
    ∃ extra : List Byte, (concatLoop w dest uploads).1.store.files dest
      = some { file with Data := file.Data ++ extra } := by
  induction uploads generalizing w file with
  | nil => exact ⟨[], by simp [concatLoop, hd]⟩
  | cons id rest ih =>
    unfold concatLoop
    cases hf : w.store.files id with
    | none => exact ⟨[], by simp [GetReader, hf, hd]⟩
    | some f =>
      simp only [GetReader, hf, NewReader, ReadAll]
      obtain ⟨extra, he⟩ := ih (appendData w dest f.Data) _ (appendData_dest w dest f.Data file hd)
      exact ⟨f.Data ++ extra, by rw [he]; simp⟩

/-- An error of the loop is the not-found error of the first unknown id. -/
theorem concatLoop_error (w : World) (dest : String) (uploads : List String)
    (file : CacheFile) (err : Error) (hd : w.store.files dest = some file)
    (h : (concatLoop w dest uploads).2 = some err) :
    ∃ pre bad rest, uploads = pre ++ bad :: rest ∧
      (∀ p ∈ pre, (w.store.files p).isSome = true) ∧
      w.store.files bad = none ∧ err = .notFound bad := by
  induction uploads generalizing w file with
  | nil => simp [concatLoop] at h
  | cons id rest ih =>
    unfold concatLoop at h
    cases hf : w.store.files id with
    | none =>
      simp [GetReader, hf] at h
      exact ⟨[], id, rest, rfl, by simp, hf, h.symm⟩
    | some f =>
      simp only [GetReader, hf, NewReader, ReadAll] at h
      obtain ⟨pre, bad, tl, hl, hknown, hbad, herr⟩ :=
        ih (appendData w dest f.Data) _ (appendData_dest w dest f.Data file hd) h
      have hbd : bad ≠ dest := by
        intro hb
        rw [hb, appendData_dest w dest f.Data file hd] at hbad
        cases hbad
      refine ⟨id :: pre, bad, tl, by simp [hl], ?_, ?_, herr⟩
      · intro p hp1
        rcases List.mem_cons.mp hp1 with hp2 | hp2
        · simp [hp2, hf]
        · by_cases hpd : p = dest
          · simp [hpd, hd]
          · rw [← appendData_other w dest p f.Data hpd]
            exact hknown p hp2
      · rw [← appendData_other w dest bad f.Data hbd]
        exact hbad

/-- Claim C4 at its own example.  Partial "pa" holds 3 bytes and partial "pb"
holds 4 bytes; ConcatUploads("fin", ["pa", "pb"]) succeeds and the final
upload then holds all 7 bytes, yet GetInfo("fin").Offset is still 0, not 7:
ConcatUploads extends Data and leaves Len, from which GetInfo takes the
Offset, as it was. -/
theorem C4_concat_leaves_offset :
    (GetInfo partsAB "pa").map (fun i => i.Offset) = .ok 3 ∧
    (GetInfo partsAB "pb").map (fun i => i.Offset) = .ok 4 ∧
    GetReader partsAB "fin" = .ok (NewReader []) ∧
    (ConcatUploads partsAB "fin" ["pa", "pb"]).2 = none ∧
    GetReader (ConcatUploads partsAB "fin" ["pa", "pb"]).1 "fin"
      = .ok (NewReader [1, 2, 3, 4, 5, 6, 7]) ∧
    (GetInfo (ConcatUploads partsAB "fin" ["pa", "pb"]).1 "fin").map (fun i => i.Offset)
      = .ok 0 := by
  decide

/-- Claim C5.  For a destination that exists with no bytes of its own and a
list of existing partial uploads that does not contain the destination,
ConcatUploads succeeds, GetReader on the destination then yields the contents
of the partials one after the other in the listed order, and GetReader on
every listed partial yields what it did before. -/
theorem C5_concat_content (w : World) (dest : String) (uploads : List String)
    (file : CacheFile) (hd : w.store.files dest = some file) (he : file.Data = [])
    (hp : ∀ p ∈ uploads, (w.store.files p).isSome = true) (hnd : dest ∉ uploads) :
    (ConcatUploads w dest uploads).2 = none ∧
    GetReader (ConcatUploads w dest uploads).1 dest
      = .ok (NewReader (uploads.map (content w)).flatten) ∧
    ∀ p ∈ uploads, GetReader (ConcatUploads w dest uploads).1 p = GetReader w p := by
  obtain ⟨v, hv, hvd, hvo⟩ := concatLoop_append w dest uploads [] file hd hp hnd
  rw [List.append_nil] at hv
  have hc : ConcatUploads w dest uploads = (v, none) := by
    simp [ConcatUploads, hd, hv, concatLoop]
  rw [hc]
  refine ⟨rfl, ?_, ?_⟩
  · simp [GetReader, hvd, he]
  · intro p hp1
    exact GetReader_congr w v p (hvo p (fun h => hnd (h ▸ hp1)))

/-- Witness for C5: the final upload "fin" and the partials "pa" and "pb". -/
theorem C5_concat_content_witness :
    (partsAB.store.files "fin" = some { Len := 0, Data := [] } ∧
      (∀ p ∈ ["pa", "pb"], (partsAB.store.files p).isSome = true) ∧ "fin" ∉ ["pa", "pb"]) ∧
    ((ConcatUploads partsAB "fin" ["pa", "pb"]).2 = none ∧
    GetReader (ConcatUploads partsAB "fin" ["pa", "pb"]).1 "fin"
      = .ok (NewReader (["pa", "pb"].map (content partsAB)).flatten) ∧
    ∀ p ∈ ["pa", "pb"], GetReader (ConcatUploads partsAB "fin" ["pa", "pb"]).1 p
      = GetReader partsAB p) :=
  ⟨by decide,
    C5_concat_content partsAB "fin" ["pa", "pb"] { Len := 0, Data := [] }
      (by decide) rfl (by decide) (by decide)⟩

/-- Claim C6, as the code has it.  When ConcatUploads returns an error, the
files on disk and every upload other than the destination are unchanged.
If the destination is unknown, the error says so and nothing has changed.
Otherwise the error is the not-found error of the first listed id that the
store does not know, and the destination holds its previous bytes followed
by what the loop had appended before reaching that id: the contents, in
order, of the ids listed before it (when the destination is not one of
them). -/
theorem C6_failed_concat_keeps_appended (w : World) (dest : String) (uploads : List String)
    (err : Error) (h : (ConcatUploads w dest uploads).2 = some err) :
    (ConcatUploads w dest uploads).1.fs = w.fs ∧
    (∀ k, k ≠ dest → (ConcatUploads w dest uploads).1.store.files k = w.store.files k) ∧
    (w.store.files dest = none →
      err = .notFound dest ∧ (ConcatUploads w dest uploads).1 = w) ∧
    (∀ file, w.store.files dest = some file →
      ∃ pre bad rest extra, uploads = pre ++ bad :: rest ∧ err = .notFound bad ∧
        w.store.files bad = none ∧ (∀ p ∈ pre, (w.store.files p).isSome = true) ∧
        GetReader (ConcatUploads w dest uploads).1 dest
          = .ok (NewReader (file.Data ++ extra)) ∧
        (dest ∉ pre → extra = (pre.map (content w)).flatten)) := by
  cases hd : w.store.files dest with
  | none =>
    have hc : ConcatUploads w dest uploads = (w, some (.notFound dest)) := by
      simp [ConcatUploads, hd]
    rw [hc] at h ⊢
    refine ⟨rfl, fun _ _ => rfl, fun _ => ⟨?_, rfl⟩, fun file hf => by cases hf⟩
    simpa using h.symm
  | some file =>
    have hc : ConcatUploads w dest uploads = concatLoop w dest uploads := by
      simp [ConcatUploads, hd]
    rw [hc] at h ⊢
    refine ⟨concatLoop_fs w dest uploads, fun k hk => concatLoop_other w dest k uploads hk,
      fun hn => (by cases hn), ?_⟩
    intro file1 hf1
    cases hf1
    obtain ⟨pre, bad, rest, hl, hknown, hbad, herr⟩ :=
      concatLoop_error w dest uploads file err hd h
    obtain ⟨extra, hextra⟩ := concatLoop_extends w dest uploads file hd
    refine ⟨pre, bad, rest, extra, hl, herr, hbad, hknown, (by simp [GetReader, hextra]), ?_⟩
    intro hnd
    obtain ⟨v, hv, hvd, hvo⟩ := concatLoop_append w dest pre (bad :: rest) file hd hknown hnd
    have hbd : bad ≠ dest := by
      intro hb
      rw [hb, hd] at hbad
      cases hbad
    have hvb : v.store.files bad = none := by rw [hvo bad hbd, hbad]
    have hstop : concatLoop v dest (bad :: rest) = (v, some (.notFound bad)) := by
      simp [concatLoop, GetReader, hvb]
    rw [hl, hv, hstop, hvd] at hextra
    simpa using hextra.symm

/-- Witness for C6: the list names the partial "pa" and then the unknown id
"zz". -/
theorem C6_failed_concat_keeps_appended_witness :
    (ConcatUploads partsAB "fin" ["pa", "zz"]).2 = some (.notFound "zz") ∧
    ((ConcatUploads partsAB "fin" ["pa", "zz"]).1.fs = partsAB.fs ∧
    (∀ k, k ≠ "fin" →
      (ConcatUploads partsAB "fin" ["pa", "zz"]).1.store.files k = partsAB.store.files k) ∧
    (partsAB.store.files "fin" = none →
      Error.notFound "zz" = .notFound "fin" ∧
        (ConcatUploads partsAB "fin" ["pa", "zz"]).1 = partsAB) ∧
    (∀ file, partsAB.store.files "fin" = some file →
      ∃ pre bad rest extra, ["pa", "zz"] = pre ++ bad :: rest ∧
        Error.notFound "zz" = .notFound bad ∧
        partsAB.store.files bad = none ∧ (∀ p ∈ pre, (partsAB.store.files p).isSome = true) ∧
        GetReader (ConcatUploads partsAB "fin" ["pa", "zz"]).1 "fin"
          = .ok (NewReader (file.Data ++ extra)) ∧
        ("fin" ∉ pre → extra = (pre.map (content partsAB)).flatten))) :=
  ⟨by decide,
    C6_failed_concat_keeps_appended partsAB "fin" ["pa", "zz"] (.notFound "zz") (by decide)⟩

/-- Counterexample to C6 as stated: the final upload "fin" holds no bytes,
ConcatUploads("fin", ["pa", "zz"]) returns the not-found error for "zz", and
afterwards "fin" holds the three bytes of "pa". -/
theorem C6_failed_concat_half_assembled :
    GetReader partsAB "fin" = .ok (NewReader []) ∧
    (ConcatUploads partsAB "fin" ["pa", "zz"]).2 = some (.notFound "zz") ∧
    GetReader (ConcatUploads partsAB "fin" ["pa", "zz"]).1 "fin"
      = .ok (NewReader [1, 2, 3]) := by
  decide

/-! ## Termination -/

theorem infoPath_inj (store : CacheStore) (a b : String)
    (h : infoPath store a = infoPath store b) : a = b := by
  have h1 := congrArg String.data h
  simp only [infoPath, Join, String.data_append] at h1
  exact String.ext (List.append_cancel_right (List.append_cancel_left h1))

theorem infoPath_ne_lock (store : CacheStore) (a b : String) :
    infoPath store a ≠ Join store.Path (b ++ ".lock") := by
  intro h
  have h1 := congrArg String.data h
  simp only [infoPath, Join, String.data_append] at h1
  have h2 := congrArg List.getLast? (List.append_cancel_left h1)
  simp at h2

theorem infoPath_of_Path (s t : CacheStore) (id : String) (h : t.Path = s.Path) :
    infoPath t id = infoPath s id := by
  simp [infoPath, h]

theorem Terminate_missing (w : World) (id : String)
    (h : w.fs.files (infoPath w.store id) = none) :
    Terminate w id = (w, some (.notExist (infoPath w.store id))) := by
  simp [Terminate, Remove, h]

theorem Terminate_present (w : World) (id : String) (c : FileContent)
    (h : w.fs.files (infoPath w.store id) = some c) :
    Terminate w id =
      ({ store := { w.store with files := fun k => if k = id then none else w.store.files k },
         fs := { w.fs with
                 files := fun p => if p = infoPath w.store id then none else w.fs.files p } },
        none) := by
  simp [Terminate, Remove, h]

theorem Terminate_ok (w : World) (id : String) (h : (Terminate w id).2 = none) :
    ∃ c, w.fs.files (infoPath w.store id) = some c := by
  cases hc : w.fs.files (infoPath w.store id) with
  | none => simp [Terminate_missing w id hc] at h
  | some c => exact ⟨c, rfl⟩

theorem Terminate_Path (w : World) (id : String) :
    (Terminate w id).1.store.Path = w.store.Path := by
  cases hc : w.fs.files (infoPath w.store id) with
  | none => rw [Terminate_missing w id hc]
  | some c => rw [Terminate_present w id c hc]

theorem ConcatUploads_Path (w : World) (dest : String) (uploads : List String) :
    (ConcatUploads w dest uploads).1.store.Path = w.store.Path := by
  have hl : ∀ (us : List String) (v : World),
      (concatLoop v dest us).1.store.Path = v.store.Path := by
    intro us
    induction us with
    | nil => intro v; rfl
    | cons id rest ih =>
      intro v
      unfold concatLoop
      cases hf : v.store.files id with
      | none => simp [GetReader, hf]
      | some file =>
        simp only [GetReader, hf, NewReader, ReadAll]
        rw [ih, appendData_Path]
  unfold ConcatUploads
  cases w.store.files dest with
  | none => rfl
  | some file => exact hl uploads w

theorem ConcatUploads_fs (w : World) (dest : String) (uploads : List String) :
    (ConcatUploads w dest uploads).1.fs = w.fs := by
  unfold ConcatUploads
  cases w.store.files dest with
  | none => rfl
  | some file => exact concatLoop_fs w dest uploads

theorem ConcatUploads_absent (w : World) (dest k : String) (uploads : List String)
    (h : (ConcatUploads w dest uploads).1.store.files k = none) :
    w.store.files k = none := by
  unfold ConcatUploads at h
  cases hd : w.store.files dest with
  | none => simpa [hd] using h
  | some file =>
    simp only [hd] at h
    by_cases hk : k = dest
    · obtain ⟨extra, he⟩ := concatLoop_extends w dest uploads file hd
      rw [hk, he] at h
      cases h
    · rwa [concatLoop_other w dest k uploads hk] at h

theorem Remove_other (fs : FileSystem) (name p : String) (h : p ≠ name) :
    (Remove fs name).1.files p = fs.files p := by
  unfold Remove
  cases fs.files name <;> simp [h]

theorem TryLock_other (fs : FileSystem) (name p : String) (h : p ≠ name) :
    (TryLock fs name).1.files p = fs.files p := by
  unfold TryLock
  split
  · split <;> simp [h]
  · rfl

theorem Unlock_other (fs : FileSystem) (name p : String) (h : p ≠ name) :
    (Unlock fs name).1.files p = fs.files p := by
  unfold Unlock
  split
  · exact Remove_other fs name p h
  · rfl
  · split <;> rfl

theorem LockUpload_info (w : World) (id k : String) :
    (LockUpload w id).1.fs.files (infoPath w.store k) = w.fs.files (infoPath w.store k) := by
  have hne := infoPath_ne_lock w.store k id
  unfold LockUpload newLock
  simp only
  split <;> exact TryLock_other _ _ _ hne

theorem UnlockUpload_info (w : World) (id k : String) :
    (UnlockUpload w id).1.fs.files (infoPath w.store k) = w.fs.files (infoPath w.store k) := by
  have hne := infoPath_ne_lock w.store k id
  unfold UnlockUpload newLock
  simp only
  split <;> exact Unlock_other _ _ _ hne

theorem NoOrphan_step (w : World) (op : Op) (hw : NoOrphan w) : NoOrphan (step w op) := by
  intro k hk
  cases op with
  | newUpload uid info =>
    simp only [step] at hk ⊢
    have hku : k ≠ uid := by
      intro h
      rw [h, NewUpload_entry] at hk
      cases hk
    have hk0 : w.store.files k = none := by
      simpa [NewUpload, writeInfo, setFile, hku] using hk
    have hp : infoPath w.store k ≠ infoPath w.store uid :=
      fun h => hku (infoPath_inj w.store k uid h)
    have h0 := hw k hk0
    simp only [NewUpload, writeInfo, WriteFile, setFile, infoPath] at hp h0 ⊢
    split <;> simp [hp, h0]
  | writeChunk id offset src =>
    simp only [step] at hk ⊢
    rw [WriteChunk_fs, infoPath_of_Path w.store _ k (WriteChunk_Path w id offset src)]
    apply hw
    unfold WriteChunk at hk
    cases hf : w.store.files id with
    | none => simpa [hf] using hk
    | some file =>
      cases src with
      | error e => simpa [hf, ReadAll] using hk
      | ok buffer =>
        simp only [hf, ReadAll] at hk
        by_cases hki : k = id
        · rw [hki, setFile_same] at hk
          cases hk
        · rwa [setFile_other w id k _ hki] at hk
  | terminate id =>
    simp only [step] at hk ⊢
    cases hc : w.fs.files (infoPath w.store id) with
    | none =>
      rw [Terminate_missing w id hc] at hk ⊢
      exact hw k hk
    | some c =>
      rw [Terminate_present w id c hc] at hk ⊢
      by_cases hki : k = id
      · simp [hki, infoPath]
      · have hp : infoPath w.store k ≠ infoPath w.store id :=
          fun h => hki (infoPath_inj w.store k id h)
        have h0 := hw k (by simpa [hki] using hk)
        simp only [infoPath] at hp h0 ⊢
        simp [hp, h0]
  | concatUploads dest uploads =>
    simp only [step] at hk ⊢
    rw [ConcatUploads_fs, infoPath_of_Path w.store _ k (ConcatUploads_Path w dest uploads)]
    exact hw k (ConcatUploads_absent w dest k uploads hk)
  | lockUpload id =>
    simp only [step] at hk ⊢
    rw [LockUpload_store] at hk ⊢
    rw [LockUpload_info]
    exact hw k hk
  | unlockUpload id =>
    simp only [step] at hk ⊢
    rw [UnlockUpload_store] at hk ⊢
    rw [UnlockUpload_info]
    exact hw k hk

theorem NoOrphan_run (w : World) (ops : List Op) (hw : NoOrphan w) : NoOrphan (run w ops) := by
  induction ops generalizing w with
  | nil => exact hw
  | cons op ops ih => exact ih _ (NoOrphan_step w op hw)

/-- Claim C7, as the code has it.  Terminate on an id whose info file is
missing returns the not-exist error of os.Remove and leaves the store and the
disk unchanged; this is so for a second Terminate right after a successful
one, and for every id unknown to the store in a state reached by any sequence
of calls from a store started over a directory without files. -/
theorem C7_terminate_unknown_is_error (w : World) (id : String) :
    (w.fs.files (infoPath w.store id) = none →
      Terminate w id = (w, some (.notExist (infoPath w.store id)))) ∧
    ((Terminate w id).2 = none →
      Terminate (Terminate w id).1 id
        = ((Terminate w id).1, some (.notExist (infoPath w.store id)))) ∧
    (∀ (path : String) (dir : Bool) (ops : List Op),
      w = run ⟨New path, ⟨dir, fun _ => none⟩⟩ ops → w.store.files id = none →
      Terminate w id = (w, some (.notExist (infoPath w.store id)))) := by
  refine ⟨Terminate_missing w id, ?_, ?_⟩
  · intro h
    obtain ⟨c, hc⟩ := Terminate_ok w id h
    rw [Terminate_present w id c hc]
    exact Terminate_missing _ id (by simp [infoPath])
  · intro path dir ops hw hf
    apply Terminate_missing
    have hn : NoOrphan (run ⟨New path, ⟨dir, fun _ => none⟩⟩ ops) :=
      NoOrphan_run _ ops (fun _ _ => rfl)
    rw [← hw] at hn
    exact hn id hf

/-- Witness for C7: an id never created in a fresh store, and an upload
terminated twice. -/
theorem C7_terminate_unknown_is_error_witness :
    ((fresh "/data").fs.files (infoPath (fresh "/data").store "a1") = none ∧
      Terminate (fresh "/data") "a1"
        = (fresh "/data", some (.notExist (infoPath (fresh "/data").store "a1")))) ∧
    ((Terminate sizeTen "a1").2 = none ∧
      Terminate (Terminate sizeTen "a1").1 "a1"
        = ((Terminate sizeTen "a1").1, some (.notExist (infoPath sizeTen.store "a1")))) ∧
    (fresh "/data" = run ⟨New "/data", ⟨true, fun _ => none⟩⟩ [] ∧
      (fresh "/data").store.files "a1" = none ∧
      Terminate (fresh "/data") "a1"
        = (fresh "/data", some (.notExist (infoPath (fresh "/data").store "a1")))) :=
  ⟨⟨by decide, (C7_terminate_unknown_is_error (fresh "/data") "a1").1 (by decide)⟩,
    ⟨by decide, (C7_terminate_unknown_is_error sizeTen "a1").2.1 (by decide)⟩,
    ⟨rfl, by decide,
      (C7_terminate_unknown_is_error (fresh "/data") "a1").2.2 "/data" true [] rfl (by decide)⟩⟩

/-- Counterexample to C7 as stated: Terminate of an id that was never created
returns an error, and so does the second Terminate of an upload that was
created and terminated. -/
theorem C7_terminate_twice_fails :
    (Terminate (fresh "/data") "a1").2 = some (.notExist "/data/a1.info") ∧
    (Terminate sizeTen "a1").2 = none ∧
    (Terminate (Terminate sizeTen "a1").1 "a1").2 = some (.notExist "/data/a1.info") := by
  decide

/-- Claim C8.  After a successful Terminate(id) the entry of the store and
the info file are gone: GetInfo, GetReader and every WriteChunk on id return
the not-found error, while for every other id the entry of the store and the
results of GetReader and GetInfo are what they were before. -/
theorem C8_terminate_removes (w : World) (id : String) (h : (Terminate w id).2 = none) :
    (Terminate w id).1.store.files id = none ∧
    (Terminate w id).1.fs.files (infoPath w.store id) = none ∧
    GetInfo (Terminate w id).1 id = .error (.notFound id) ∧
    GetReader (Terminate w id).1 id = .error (.notFound id) ∧
    (∀ (offset : Int) (src : Reader),
      WriteChunk (Terminate w id).1 id offset src
        = ((Terminate w id).1, .error (.notFound id))) ∧
    (∀ k, k ≠ id →
      (Terminate w id).1.store.files k = w.store.files k ∧
      GetReader (Terminate w id).1 k = GetReader w k ∧
      GetInfo (Terminate w id).1 k = GetInfo w k) := by
  obtain ⟨c, hc⟩ := Terminate_ok w id h
  rw [Terminate_present w id c hc]
  refine ⟨by simp, by simp, by simp [GetInfo], by simp [GetReader],
    fun offset src => by simp [WriteChunk], ?_⟩
  intro k hk
  have hp : infoPath w.store k ≠ infoPath w.store id :=
    fun hi => hk (infoPath_inj w.store k id hi)
  simp only [infoPath] at hp
  refine ⟨by simp [hk], by simp [GetReader, hk], ?_⟩
  simp [GetInfo, ReadFile, hk, infoPath, hp]

/-- Witness for C8: the uploads "pa", "pb" and "fin", of which "pa" is
terminated. -/
theorem C8_terminate_removes_witness :
    (Terminate partsAB "pa").2 = none ∧
    ((Terminate partsAB "pa").1.store.files "pa" = none ∧
    (Terminate partsAB "pa").1.fs.files (infoPath partsAB.store "pa") = none ∧
    GetInfo (Terminate partsAB "pa").1 "pa" = .error (.notFound "pa") ∧
    GetReader (Terminate partsAB "pa").1 "pa" = .error (.notFound "pa") ∧
    (∀ (offset : Int) (src : Reader),
      WriteChunk (Terminate partsAB "pa").1 "pa" offset src
        = ((Terminate partsAB "pa").1, .error (.notFound "pa"))) ∧
    (∀ k, k ≠ "pa" →
      (Terminate partsAB "pa").1.store.files k = partsAB.store.files k ∧
      GetReader (Terminate partsAB "pa").1 k = GetReader partsAB k ∧
      GetInfo (Terminate partsAB "pa").1 k = GetInfo partsAB k)) :=
  ⟨by decide, C8_terminate_removes partsAB "pa" (by decide)⟩

/-! ## Creation round trip -/

theorem WriteChunk_entry (w : World) (id : String) (offset : Int) (src : Reader)
    (file : CacheFile) (hf : w.store.files id = some file) :
    ∃ g, (WriteChunk w id offset src).1.store.files id = some g := by
  unfold WriteChunk
  cases src with
  | error e => exact ⟨file, by simp [hf, ReadAll]⟩
  | ok buffer => exact ⟨_, by simp only [hf, ReadAll]; exact setFile_same w id _⟩

theorem writeMany_entry (w : World) (id : String) (calls : List (Int × Reader))
    (file : CacheFile) (hf : w.store.files id = some file) :
    ∃ g, (writeMany w id calls).1.store.files id = some g := by
  induction calls generalizing w file with
  | nil => exact ⟨file, hf⟩
  | cons c rest ih =>
    obtain ⟨offset, src⟩ := c
    obtain ⟨g, hg⟩ := WriteChunk_entry w id offset src file hf
    exact ih _ g hg

/-- Valid UTF-8 passes through the JSON string writer and reader unchanged. -/
theorem jsonStringFrom_of_valid (n : Nat) (s : GoString) (h : validFrom n s = true) :
    jsonStringFrom n s = s := by
  induction s generalizing n with
  | nil => cases n <;> rfl
  | cons b rest ih =>
    cases n with
    | succ k =>
      simp only [validFrom] at h
      simp only [jsonStringFrom, ih k h]
    | zero =>
      simp only [validFrom] at h
      simp only [jsonStringFrom]
      cases hr : runeLen (b :: rest) with
      | zero => simp [hr] at h
      | succ m =>
        simp only [hr] at h
        simp only [ih m h]

theorem jsonString_of_valid (s : GoString) (h : ValidUTF8 s = true) : jsonString s = s :=
  jsonStringFrom_of_valid 0 s h

theorem assign_fresh (m : List (GoString × GoString)) (k v : GoString)
    (h : k ∉ m.map Prod.fst) : assign m k v = m ++ [(k, v)] := by
  induction m with
  | nil => rfl
  | cons e rest ih =>
    obtain ⟨k0, v0⟩ := e
    simp only [List.map_cons, List.mem_cons, not_or] at h
    simp only [assign, List.cons_append]
    rw [if_neg (fun hk => h.1 hk.symm), ih h.2]

theorem foldl_assign_distinct (l acc : List (GoString × GoString))
    (hn : ((acc ++ l).map Prod.fst).Nodup)
    (hv : ∀ kv ∈ l, jsonString kv.1 = kv.1 ∧ jsonString kv.2 = kv.2) :
    l.foldl (fun m kv => assign m (jsonString kv.1) (jsonString kv.2)) acc = acc ++ l := by
  induction l generalizing acc with
  | nil => simp
  | cons kv rest ih =>
    have hkv := hv kv (by simp)
    have hfresh : kv.1 ∉ acc.map Prod.fst := by
      intro hmem
      rw [List.map_append, List.nodup_append] at hn
      exact hn.2.2 hmem (by simp)
    simp only [List.foldl_cons, hkv.1, hkv.2]
    rw [assign_fresh acc kv.1 kv.2 hfresh]
    rw [ih (acc ++ [(kv.1, kv.2)]) (by simpa using hn) (fun e he => hv e (by simp [he]))]
    simp

theorem mapIndex_eq_some (m : List (GoString × GoString)) (k v : GoString)
    (hn : (m.map Prod.fst).Nodup) : mapIndex m k = some v ↔ (k, v) ∈ m := by
  induction m with
  | nil => simp [mapIndex]
  | cons e rest ih =>
    obtain ⟨k0, v0⟩ := e
    simp only [List.map_cons, List.nodup_cons] at hn
    simp only [mapIndex, List.mem_cons, Prod.mk.injEq]
    by_cases hk : k0 = k
    · subst hk
      simp only [if_true, Option.some.injEq, true_and]
      constructor
      · intro h
        exact Or.inl h.symm
      · intro h
        rcases h with h | h
        · exact h.symm
        · exact absurd (List.mem_map_of_mem Prod.fst h) hn.1
    · rw [if_neg hk, ih hn.2]
      constructor
      · intro h
        exact Or.inr h
      · intro h
        rcases h with h | h
        · exact absurd h.1.symm hk
        · exact h

theorem mapIndex_perm (m₁ m₂ : List (GoString × GoString)) (k : GoString)
    (hn : (m₂.map Prod.fst).Nodup) (hp : m₁.Perm m₂) : mapIndex m₁ k = mapIndex m₂ k := by
  have hn1 : (m₁.map Prod.fst).Nodup := ((hp.map Prod.fst).nodup_iff).mpr hn
  apply Option.ext
  intro v
  simp only [Option.mem_def]
  rw [mapIndex_eq_some m₁ k v hn1, mapIndex_eq_some m₂ k v hn, hp.mem_iff]

/-- A map with valid UTF-8 keys and values comes back from the info file
with the entries it had, in the order of the keys. -/
theorem decode_encode_MetaData (info : FileInfo) (hn : (info.MetaData.map Prod.fst).Nodup)
    (hv : ∀ kv ∈ info.MetaData, ValidUTF8 kv.1 = true ∧ ValidUTF8 kv.2 = true) :
    (decode (encode info)).MetaData = info.MetaData.insertionSort keyLE := by
  have hp := List.perm_insertionSort keyLE info.MetaData
  have hs : ∀ kv ∈ info.MetaData.insertionSort keyLE,
      jsonString kv.1 = kv.1 ∧ jsonString kv.2 = kv.2 := fun kv hkv =>
    ⟨jsonString_of_valid _ (hv kv (hp.mem_iff.mp hkv)).1,
      jsonString_of_valid _ (hv kv (hp.mem_iff.mp hkv)).2⟩
  have hm : (info.MetaData.insertionSort keyLE).map
      (fun kv => (jsonString kv.1, jsonString kv.2)) = info.MetaData.insertionSort keyLE := by
    conv_rhs => rw [← List.map_id (info.MetaData.insertionSort keyLE)]
    apply List.map_congr_left
    intro kv hkv
    simp [(hs kv hkv).1, (hs kv hkv).2]
  simp only [decode, encode, hm]
  rw [foldl_assign_distinct _ [] (by simpa using ((hp.map Prod.fst).nodup_iff).mpr hn) hs]
  simp

theorem decode_encode_PartialUploads (info : FileInfo)
    (hv : ∀ s ∈ info.PartialUploads, ValidUTF8 s = true) :
    (decode (encode info)).PartialUploads = info.PartialUploads := by
  simp only [decode, encode, List.map_map]
  conv_rhs => rw [← List.map_id info.PartialUploads]
  apply List.map_congr_left
  intro s hs
  simp [jsonString_of_valid s (hv s hs)]

/-- Claim C9, as the code has it.  When NewUpload returns id without error,
GetInfo(id) succeeds with a record that has ID = id and Offset = 0 (whatever
the record passed in had there) and the Size, SizeIsDeferred, IsPartial and
IsFinal passed in.  Its PartialUploads are the ones passed in when these are
valid UTF-8, and its MetaData has the entries passed in, the same value for
every key, when the keys and values are valid UTF-8 (the map passed in has no
key twice).  After any later sequence of WriteChunk calls on id (any offsets,
any readers) GetInfo(id) returns that record again, changed in the Offset
field only. -/
theorem C9_round_trip_of_valid_text (w : World) (uid : String) (info : FileInfo)
    (calls : List (Int × Reader)) (h : (NewUpload w uid info).2.2 = none) :
    ∃ r : FileInfo,
      GetInfo (NewUpload w uid info).1 (NewUpload w uid info).2.1 = .ok r ∧
      r.ID = (NewUpload w uid info).2.1 ∧ r.Offset = 0 ∧ r.Size = info.Size ∧
      r.SizeIsDeferred = info.SizeIsDeferred ∧ r.IsPartial = info.IsPartial ∧
      r.IsFinal = info.IsFinal ∧
      ((∀ s ∈ info.PartialUploads, ValidUTF8 s = true) →
        r.PartialUploads = info.PartialUploads) ∧
      ((info.MetaData.map Prod.fst).Nodup →
        (∀ kv ∈ info.MetaData, ValidUTF8 kv.1 = true ∧ ValidUTF8 kv.2 = true) →
        r.MetaData.Perm info.MetaData ∧
        ∀ k, mapIndex r.MetaData k = mapIndex info.MetaData k) ∧
      ∃ n : Int,
        GetInfo (writeMany (NewUpload w uid info).1 (NewUpload w uid info).2.1 calls).1
            (NewUpload w uid info).2.1 = .ok { r with Offset := n } := by
  rw [NewUpload_id]
  have hs := NewUpload_sidecar w uid info h
  refine ⟨{ decode (encode { info with ID := uid }) with Offset := 0 }, ?_, rfl, rfl, rfl,
    rfl, rfl, rfl, ?_, ?_, ?_⟩
  · rw [GetInfo_of_entry _ uid _ (encode { info with ID := uid })
      (NewUpload_entry w uid info) hs]
  · intro hv
    exact decode_encode_PartialUploads { info with ID := uid } hv
  · intro hn hv
    have hm := decode_encode_MetaData { info with ID := uid } hn hv
    have hp := List.perm_insertionSort keyLE info.MetaData
    simp only [hm]
    exact ⟨hp, fun k => mapIndex_perm _ _ k hn hp⟩
  · obtain ⟨g, hg⟩ := writeMany_entry (NewUpload w uid info).1 uid calls _
      (NewUpload_entry w uid info)
    refine ⟨g.Len, ?_⟩
    rw [GetInfo_of_entry _ uid g (encode { info with ID := uid }) hg]
    rw [writeMany_fs]
    simpa [infoPath, writeMany_Path] using hs

/-- Witness for C9: the record named, whose strings are valid UTF-8, and two
later writes, one of them at a wrong offset. -/
theorem C9_round_trip_of_valid_text_witness :
    (NewUpload (fresh "/data") "a1" named).2.2 = none ∧
    ∃ r : FileInfo,
      GetInfo (NewUpload (fresh "/data") "a1" named).1
        (NewUpload (fresh "/data") "a1" named).2.1 = .ok r ∧
      r.ID = "a1" ∧ r.Offset = 0 ∧ r.Size = 10 ∧
      r.PartialUploads = named.PartialUploads ∧
      (r.MetaData.Perm named.MetaData ∧
        ∀ k, mapIndex r.MetaData k = mapIndex named.MetaData k) ∧
      ∃ n : Int,
        GetInfo (writeMany (NewUpload (fresh "/data") "a1" named).1
            (NewUpload (fresh "/data") "a1" named).2.1
            [(0, NewReader [1, 2]), (9, NewReader [3])]).1
            (NewUpload (fresh "/data") "a1" named).2.1 = .ok { r with Offset := n } :=
  ⟨by decide,
    Exists.imp
      (fun r hr =>
        ⟨hr.1, hr.2.1, hr.2.2.1, hr.2.2.2.1, hr.2.2.2.2.2.2.2.1 (by decide),
          hr.2.2.2.2.2.2.2.2.1 (by decide) (by decide), hr.2.2.2.2.2.2.2.2.2⟩)
      (C9_round_trip_of_valid_text (fresh "/data") "a1" named
        [(0, NewReader [1, 2]), (9, NewReader [3])] (by decide))⟩

/-- Counterexample to C9 as stated: NewUpload succeeds on a record whose
metadata value for the key name is the byte FF and whose partial upload name
is the byte FF, and GetInfo returns the three bytes EF BF BD (the encoding of
U+FFFD) in place of each, not the values supplied. -/
theorem C9_invalid_bytes_replaced :
    (NewUpload (fresh "/data") "a1" rawNamed).2.2 = none ∧
    rawNamed.MetaData = [([0x6E, 0x61, 0x6D, 0x65], [0xFF])] ∧
    rawNamed.PartialUploads = [[0xFF]] ∧
    (GetInfo (NewUpload (fresh "/data") "a1" rawNamed).1
        (NewUpload (fresh "/data") "a1" rawNamed).2.1).map
        (fun i => (i.MetaData, i.PartialUploads))
      = .ok ([([0x6E, 0x61, 0x6D, 0x65], [0xEF, 0xBF, 0xBD])], [[0xEF, 0xBF, 0xBD]]) := by
  decide

/-! ## Locking -/

/-- Claim C10 at the sequence of the locker test.  UnlockUpload on an id that
was never locked returns ErrRogueDeletion; after a successful LockUpload the
first UnlockUpload returns no error and the second one returns
ErrRogueDeletion: Unlock reports a missing lock file with that error, which
is not one that os.IsNotExist recognises, so UnlockUpload passes it on. -/
theorem C10_unlock_of_missing_lock_fails :
    (UnlockUpload (fresh "/data") "one").2 = some .rogueDeletion ∧
    (LockUpload (fresh "/data") "one").2 = none ∧
    (UnlockUpload (LockUpload (fresh "/data") "one").1 "one").2 = none ∧
    (UnlockUpload (UnlockUpload (LockUpload (fresh "/data") "one").1 "one").1 "one").2
      = some .rogueDeletion := by
  decide

end cachestore
